import Mathlib

/-!
Shallow embedding of the telemetry service core
(source: src/scripts/telemetry/telemetry_api.py) and proofs of the
specification claims about it.

Python dict payloads are modelled as association lists of string keys and
a JSON-like value type; Python floats (used by the source only for
elementary arithmetic, rounding and comparison) are modelled as rationals;
Python ints as integers or naturals.  OS probe outcomes (psutil / shutil /
os results and their possible exceptions) are passed to each embedded probe
as explicit inputs, so that every probe is a pure function of the observed
host state.
-/

namespace Telemetry

/-- JSON-like values appearing in the status payload dictionaries. -/
inductive Val where
  | str : String → Val
  | q : ℚ → Val
  | int : ℤ → Val
  | nat : Nat → Val
  | bool : Bool → Val
deriving DecidableEq, Repr

/-- A Python dict with string keys, in insertion order. -/
abbrev Dict := List (String × Val)

/-- Model of the Python builtin round(x, 1): round to one decimal digit.
The exact tie-breaking mode (Python rounds half to even) is irrelevant to
every claim proved below; we use the standard rounding of rationals. -/
def round1 (x : ℚ) : ℚ := (round (x * 10) : ℚ) / 10

/-- Model of the Python builtin round(x) producing an int. -/
def round0 (x : ℚ) : ℤ := round x

/-- Python division, which raises ZeroDivisionError on a zero denominator;
modelled in Except so that a raised error is observable. -/
def pyDiv (a b : ℚ) : Except String ℚ :=
  if b = 0 then .error "ZeroDivisionError" else .ok (a / b)

/-! ### Disk usage probe: the function named disk_info in the source

The source (telemetry_api.py lines 126-140):

  if not os.path.exists(path): return {"available": False}
  try:
      u = shutil.disk_usage(path)
      pct = round(u.used / u.total * 100, 1) if u.total else 0
      return {"available": True, "total_gb": ..., "used_gb": ...,
              "free_gb": ..., "pct": pct}
  except OSError:
      return {"available": False}

The OS view of the path is passed explicitly: whether the path exists,
and the result of shutil.disk_usage (either a usage triple or an OSError).
The body runs in Except so a ZeroDivisionError, were one possible, would
surface as an error value (the except clause of the source catches only
OSError, which is modelled by the DiskCall.err case, not by Except). -/

/-- Result of the shutil.disk_usage OS call: a usage triple or an OSError. -/
inductive DiskCall where
  | usage (total used free : ℚ) : DiskCall
  | err : DiskCall
deriving DecidableEq, Repr

def disk_info (pathExists : Bool) (call : DiskCall) : Except String Dict :=
  if pathExists = false then .ok [("available", .bool false)]
  else
    match call with
    | .err => .ok [("available", .bool false)]
    | .usage total used free => do
        let pct ← if total ≠ 0 then do
            let r ← pyDiv used total
            pure (round1 (r * 100))
          else pure (0 : ℚ)
        pure [("available", .bool true),
              ("total_gb", .q (round1 (total / 1000000000))),
              ("used_gb", .q (round1 (used / 1000000000))),
              ("free_gb", .q (round1 (free / 1000000000))),
              ("pct", .q pct)]

/-! ### Process counting and auxiliary-service liveness

Source lines 113-123 (count_procs) and 172-181 (ollama_active).
A scanned process is modelled with the attributes the source reads;
processes that vanished mid-scan or are access-denied raise inside the
loop body and are skipped, modelled by the readable flag. -/

/-- One entry of the psutil process table as observed during a scan. -/
structure Proc where
  pid : Nat
  name : String
  username : String
  cmdline : List String
  cpu_percent : ℚ
  mem_rss : ℚ
  create_time : ℚ
  /-- False when accessing the process raises NoSuchProcess /
  AccessDenied / ZombieProcess, making the scan skip it. -/
  readable : Bool
deriving DecidableEq, Repr

/-- The Python substring test (sub in s). -/
def strContains (s sub : String) : Bool :=
  decide (sub.toList <:+: s.toList)

/-- count_procs: count processes whose name or any command-line argument
contains the given substring; unreadable processes are skipped. -/
def count_procs (name_sub : String) (procs : List Proc) : Nat :=
  procs.foldl
    (fun count p =>
      if p.readable &&
          (strContains p.name name_sub || p.cmdline.any (fun a => strContains a name_sub))
      then count + 1 else count)
    0

/-- One entry of the psutil TCP connection table. -/
structure Conn where
  lport : Nat
  status : String
deriving DecidableEq, Repr

/-- The result of psutil.net_connections: a list, or AccessDenied / OSError. -/
abbrev ConnCall := Except Unit (List Conn)

/-- ollama_active: true when a process name / cmdline matches, else true
when an established TCP connection with local port 11434 exists, else
false; a failing connection scan yields false on that branch. -/
def ollama_active (procs : List Proc) (conns : ConnCall) : Bool :=
  if count_procs "ollama" procs > 0 then true
  else
    match conns with
    | .ok cs => cs.any (fun c => c.lport == 11434 && c.status == "ESTABLISHED")
    | .error _ => false

/-! ### Top-N rsession ranking: the function named top_r_sessions

Source lines 143-159.  Each matching process yields a session record with
exactly the keys cpu_pct, mem_mb, age_min; the list is sorted by cpu_pct
with the stable Python list.sort and reverse=True (descending order, ties
kept in first-observed order), truncated to n, and each surviving record
is published with a positional label prepended.  The stable descending
sort is modelled by a stable insertion sort (extensionally equal to every
stable descending sort). -/

/-- The per-process record built inside top_r_sessions (the dict with keys
cpu_pct, mem_mb, age_min, in that order). -/
structure SessInfo where
  cpu_pct : ℚ
  mem_mb : ℚ
  age_min : ℤ
deriving DecidableEq, Repr

/-- The record built for one matching process: rounded cpu percent,
resident memory in MB, age in minutes. -/
def sessOf (now : ℚ) (p : Proc) : SessInfo :=
  { cpu_pct := round1 p.cpu_percent
    mem_mb := round1 (p.mem_rss / 1000000)
    age_min := round0 ((now - p.create_time) / 60) }

/-- The scan loop of top_r_sessions: processes whose name contains
"rsession" contribute a record; unreadable ones are skipped. -/
def collectSessions (now : ℚ) (procs : List Proc) : List SessInfo :=
  procs.filterMap (fun p =>
    if p.readable && strContains p.name "rsession" then some (sessOf now p) else none)

/-- Insert into a descending-sorted list, after all entries with
cpu_pct greater than or equal to the new one (stability). -/
def insDesc (x : SessInfo) : List SessInfo → List SessInfo
  | [] => [x]
  | y :: ys => if y.cpu_pct < x.cpu_pct then x :: y :: ys else y :: insDesc x ys

/-- Stable descending sort by cpu_pct, the model of
sessions.sort(key cpu_pct, reverse True). -/
def sortDesc (l : List SessInfo) : List SessInfo :=
  l.foldl (fun acc x => insDesc x acc) []

/-- The published dict for rank i (0-based): label plus the three numeric
fields, mirroring the dict with label first and the record spread after. -/
def sessEntry (i : Nat) (s : SessInfo) : Dict :=
  [("label", .str ("Session " ++ toString (i + 1))),
   ("cpu_pct", .q s.cpu_pct),
   ("mem_mb", .q s.mem_mb),
   ("age_min", .int s.age_min)]

/-- top_r_sessions: collect, sort descending (stable), truncate to n, and
label positionally in rank order. -/
def top_r_sessions (n : Nat) (now : ℚ) (procs : List Proc) : List Dict :=
  ((sortDesc (collectSessions now procs)).take n).enum.map fun p => sessEntry p.1 p.2

/-- Descending order on cpu_pct (non-strict). -/
abbrev DescSorted (l : List SessInfo) : Prop :=
  l.Pairwise fun a b => b.cpu_pct ≤ a.cpu_pct

theorem mem_insDesc (x b : SessInfo) :
    ∀ l : List SessInfo, b ∈ insDesc x l ↔ b = x ∨ b ∈ l := by
  intro l
  induction l with
  | nil => simp [insDesc]
  | cons y ys ih =>
    by_cases h : y.cpu_pct < x.cpu_pct
    · simp only [insDesc, if_pos h, List.mem_cons]
    · simp only [insDesc, if_neg h, List.mem_cons, ih]
      tauto

theorem insDesc_sorted {l : List SessInfo} (h : DescSorted l) (x : SessInfo) :
    DescSorted (insDesc x l) := by
  induction l with
  | nil => simp [insDesc]
  | cons y ys ih =>
    obtain ⟨h1, h2⟩ := List.pairwise_cons.mp h
    by_cases hc : y.cpu_pct < x.cpu_pct
    · rw [insDesc, if_pos hc]
      refine List.pairwise_cons.mpr ⟨?_, List.pairwise_cons.mpr ⟨h1, h2⟩⟩
      intro b hb
      rcases List.mem_cons.mp hb with hb | hb
      · exact hb ▸ le_of_lt hc
      · exact le_trans (h1 b hb) (le_of_lt hc)
    · rw [insDesc, if_neg hc]
      refine List.pairwise_cons.mpr ⟨?_, ih h2⟩
      intro b hb
      rcases (mem_insDesc x b ys).mp hb with hb | hb
      · exact hb ▸ le_of_not_lt hc
      · exact h1 b hb

theorem insDesc_filter (c : ℚ) (x : SessInfo) :
    ∀ l : List SessInfo, DescSorted l →
      (insDesc x l).filter (fun s => decide (s.cpu_pct = c))
        = l.filter (fun s => decide (s.cpu_pct = c))
          ++ if x.cpu_pct = c then [x] else [] := by
  intro l
  induction l with
  | nil =>
    intro _
    by_cases hx : x.cpu_pct = c <;> simp [insDesc, List.filter, hx]
  | cons y ys ih =>
    intro hsort0
    have hsort := List.pairwise_cons.mp hsort0
    by_cases hc : y.cpu_pct < x.cpu_pct
    · rw [insDesc, if_pos hc]
      by_cases hx : x.cpu_pct = c
      · have hnil : (y :: ys).filter (fun s => decide (s.cpu_pct = c)) = [] := by
          rw [List.filter_eq_nil_iff]
          intro b hb
          rcases List.mem_cons.mp hb with hb | hb
          · subst hb; simp only [decide_eq_true_eq]
            exact ne_of_lt (hx ▸ hc)
          · simp only [decide_eq_true_eq]
            exact ne_of_lt (lt_of_le_of_lt (hsort.1 b hb) (hx ▸ hc))
        rw [List.filter_cons, if_pos (by simp [hx]), hnil, if_pos hx]
        simp
      · rw [List.filter_cons, if_neg (by simp [hx]), if_neg hx]
        simp
    · rw [insDesc, if_neg hc]
      rw [List.filter_cons, List.filter_cons, ih hsort.2]
      by_cases hy : y.cpu_pct = c
      · simp [hy]
      · simp [hy]

theorem sortDesc_go_sorted :
    ∀ (l acc : List SessInfo), DescSorted acc →
      DescSorted (l.foldl (fun a x => insDesc x a) acc) := by
  intro l
  induction l with
  | nil => intro acc h; exact h
  | cons p ps ih => intro acc h; exact ih _ (insDesc_sorted h p)

theorem sortDesc_sorted (l : List SessInfo) : DescSorted (sortDesc l) :=
  sortDesc_go_sorted l [] List.Pairwise.nil

theorem sortDesc_go_filter (c : ℚ) :
    ∀ (l acc : List SessInfo), DescSorted acc →
      (l.foldl (fun a x => insDesc x a) acc).filter (fun s => decide (s.cpu_pct = c))
        = acc.filter (fun s => decide (s.cpu_pct = c))
          ++ l.filter (fun s => decide (s.cpu_pct = c)) := by
  intro l
  induction l with
  | nil => intro acc _; simp
  | cons p ps ih =>
    intro acc h
    rw [List.foldl_cons, ih _ (insDesc_sorted h p), insDesc_filter c p acc h,
      List.filter_cons]
    by_cases hp : p.cpu_pct = c
    · rw [if_pos hp, if_pos (by simp [hp])]
      simp
    · rw [if_neg hp, if_neg (by simp [hp])]
      simp

/-- Stability of the sort: for every cpu value, the matching entries appear
in the sorted list exactly in their first-observed order. -/
theorem sortDesc_stable (c : ℚ) (l : List SessInfo) :
    (sortDesc l).filter (fun s => decide (s.cpu_pct = c))
      = l.filter (fun s => decide (s.cpu_pct = c)) := by
  have h := sortDesc_go_filter c l [] List.Pairwise.nil
  simpa [sortDesc] using h

/-- Concrete process table realising the CPU samples 5.0, 9.5, 9.5, 1.0 in
observation order (memory fields 3, 1, 2, 4 MB distinguish the entries). -/
def exampleProcs : List Proc :=
  [{ pid := 101, name := "rsession", username := "alice", cmdline := ["rsession"],
     cpu_percent := 5, mem_rss := 3000000, create_time := 1000, readable := true },
   { pid := 102, name := "rsession", username := "bob", cmdline := ["rsession"],
     cpu_percent := 19/2, mem_rss := 1000000, create_time := 1000, readable := true },
   { pid := 103, name := "rsession", username := "carol", cmdline := ["rsession"],
     cpu_percent := 19/2, mem_rss := 2000000, create_time := 1000, readable := true },
   { pid := 104, name := "rsession", username := "dave", cmdline := ["rsession"],
     cpu_percent := 1, mem_rss := 4000000, create_time := 1000, readable := true }]

/-- C2: top_r_sessions returns at most n entries; the ranking is sorted by
cpu_pct in descending order; ties between equal cpu_pct values keep their
first-observed order (stable sort, stated as: filtering the sorted list to
any fixed cpu value yields exactly the input's matching entries in input
order); entry i carries the positional label of rank i; and on the CPU
samples 5.0, 9.5, 9.5, 1.0 with n = 3 the output is the two 9.5 records in
observation order followed by 5.0, with the 1.0 sample excluded. -/
theorem top_r_sessions_spec (n : Nat) (now : ℚ) (procs : List Proc) :
    (top_r_sessions n now procs).length ≤ n ∧
    DescSorted ((sortDesc (collectSessions now procs)).take n) ∧
    (∀ c : ℚ,
      (sortDesc (collectSessions now procs)).filter (fun s => decide (s.cpu_pct = c))
        = (collectSessions now procs).filter (fun s => decide (s.cpu_pct = c))) ∧
    (∀ i (hi : i < ((sortDesc (collectSessions now procs)).take n).length),
      ∃ hj : i < (top_r_sessions n now procs).length,
        (top_r_sessions n now procs).get ⟨i, hj⟩
          = sessEntry i (((sortDesc (collectSessions now procs)).take n).get ⟨i, hi⟩)) ∧
    top_r_sessions 3 1000 exampleProcs =
      [sessEntry 0 { cpu_pct := 19/2, mem_mb := 1, age_min := 0 },
       sessEntry 1 { cpu_pct := 19/2, mem_mb := 2, age_min := 0 },
       sessEntry 2 { cpu_pct := 5, mem_mb := 3, age_min := 0 }] := by
  refine ⟨?_, ?_, fun c => sortDesc_stable c _, ?_, ?_⟩
  · simp only [top_r_sessions, List.length_map, List.enum_length, List.length_take]
    exact min_le_left _ _
  · exact List.Pairwise.sublist (List.take_sublist n _) (sortDesc_sorted _)
  · intro i hi
    have hlen : (top_r_sessions n now procs).length
        = ((sortDesc (collectSessions now procs)).take n).length := by
      simp [top_r_sessions, List.enum_length]
    refine ⟨hlen ▸ hi, ?_⟩
    simp [top_r_sessions, List.get_eq_getElem, List.getElem_map, List.getElem_enum]
  · norm_num [top_r_sessions, collectSessions, sortDesc, insDesc, sessOf, round1,
      round0, round_eq, exampleProcs, strContains, List.filterMap, List.enum,
      List.enumFrom]

theorem top_r_sessions_spec_witness :
    (top_r_sessions 3 1000 exampleProcs).length ≤ 3 :=
  (top_r_sessions_spec 3 1000 exampleProcs).1

/-- C7: every published top-process entry has exactly the keys label,
cpu_pct, mem_mb, age_min (label a positional string), and the published
list is invariant under arbitrary rewriting of the pid, username and
cmdline attributes of the scanned processes — no process id, account name
or command-line value reaches the published form. -/
theorem top_r_sessions_anonymous (n : Nat) (now : ℚ) (procs : List Proc)
    (g : Proc → Proc)
    (hg : ∀ p : Proc, (g p).readable = p.readable ∧ (g p).name = p.name ∧
        (g p).cpu_percent = p.cpu_percent ∧ (g p).mem_rss = p.mem_rss ∧
        (g p).create_time = p.create_time) :
    (∀ e ∈ top_r_sessions n now procs,
        e.map Prod.fst = ["label", "cpu_pct", "mem_mb", "age_min"]) ∧
    top_r_sessions n now (procs.map g) = top_r_sessions n now procs := by
  constructor
  · intro e he
    obtain ⟨p, _, rfl⟩ := List.mem_map.mp he
    rfl
  · have hc : collectSessions now (procs.map g) = collectSessions now procs := by
      unfold collectSessions
      induction procs with
      | nil => rfl
      | cons p ps ih =>
        obtain ⟨h1, h2, h3, h4, h5⟩ := hg p
        simp only [List.map_cons, List.filterMap_cons]
        rw [h1, h2, ih]
        cases hcond : p.readable && strContains p.name "rsession" <;>
          simp [hcond, sessOf, h3, h4, h5]
    simp [top_r_sessions, hc]

/-- A concrete anonymising rewrite of the identifying attributes. -/
def scrub (p : Proc) : Proc :=
  { p with pid := 0, username := "anonymous", cmdline := [] }

theorem top_r_sessions_anonymous_witness :
    (∀ e ∈ top_r_sessions 3 1000 exampleProcs,
        e.map Prod.fst = ["label", "cpu_pct", "mem_mb", "age_min"]) ∧
    top_r_sessions 3 1000 (exampleProcs.map scrub) = top_r_sessions 3 1000 exampleProcs :=
  top_r_sessions_anonymous 3 1000 exampleProcs scrub fun _ => ⟨rfl, rfl, rfl, rfl, rfl⟩

/-- C4: when the path does not exist or the disk usage call fails, the
probe returns a dict containing exactly the key available with value
false and no numeric field; when the path is readable and the call
succeeds, it returns available=true together with all four numeric fields,
so a reading of 0 free bytes is distinguishable from an unavailable disk. -/
theorem disk_info_spec (pathExists : Bool) (call : DiskCall) :
    ((pathExists = false ∨ call = DiskCall.err) →
      disk_info pathExists call = .ok [("available", Val.bool false)]) ∧
    (∀ total used free : ℚ,
      pathExists = true → call = DiskCall.usage total used free →
      disk_info pathExists call
        = .ok [("available", Val.bool true),
               ("total_gb", .q (round1 (total / 1000000000))),
               ("used_gb", .q (round1 (used / 1000000000))),
               ("free_gb", .q (round1 (free / 1000000000))),
               ("pct", .q (if total = 0 then 0 else round1 (used / total * 100)))]) := by
  constructor
  · rintro (h | h)
    · simp [disk_info, h]
    · subst h
      cases pathExists <;> simp [disk_info]
  · rintro total used free h rfl
    subst h
    by_cases ht : total = 0
    · simp [disk_info, ht, pyDiv, pure, Except.pure, bind, Except.bind]
    · simp [disk_info, ht, pyDiv, pure, Except.pure, bind, Except.bind]

theorem disk_info_spec_witness :
    disk_info false DiskCall.err = .ok [("available", Val.bool false)] :=
  (disk_info_spec false DiskCall.err).1 (Or.inl rfl)

/-- C10: for a readable path the percent computation is total: the probe
never produces a ZeroDivisionError (the division is guarded by the check
on total), and a filesystem reporting 0 total bytes yields pct = 0
together with available = true. -/
theorem disk_info_no_div_by_zero (total used free : ℚ) :
    (∃ d : Dict, disk_info true (DiskCall.usage total used free) = .ok d) ∧
    (total = 0 → disk_info true (DiskCall.usage total used free)
      = .ok [("available", Val.bool true),
             ("total_gb", .q (round1 (0 / 1000000000))),
             ("used_gb", .q (round1 (used / 1000000000))),
             ("free_gb", .q (round1 (free / 1000000000))),
             ("pct", .q 0)]) := by
  constructor
  · by_cases ht : total = 0 <;>
      exact ⟨_, ((disk_info_spec true (DiskCall.usage total used free)).2
        total used free rfl rfl)⟩
  · intro ht
    subst ht
    have h := (disk_info_spec true (DiskCall.usage 0 used free)).2 0 used free rfl rfl
    simpa using h

theorem disk_info_no_div_by_zero_witness :
    disk_info true (DiskCall.usage 0 7 0)
      = .ok [("available", Val.bool true),
             ("total_gb", .q (round1 (0 / 1000000000))),
             ("used_gb", .q (round1 (7 / 1000000000))),
             ("free_gb", .q (round1 (0 / 1000000000))),
             ("pct", .q 0)] :=
  (disk_info_no_div_by_zero 0 7 0).2 rfl

/-- The established-connection signal on the ollama port, as scanned by
ollama_active: false when the connection-table scan fails. -/
def connSignal (conns : ConnCall) : Bool :=
  match conns with
  | .ok cs => cs.any fun c => c.lport == 11434 && c.status == "ESTABLISHED"
  | .error _ => false

/-- C5: ollama_active is the boolean OR of the process-match signal and
the established-connection signal on port 11434: a process match with no
connection yields true, a connection with no process match yields true,
and neither signal yields false. -/
theorem ollama_active_spec (procs : List Proc) (conns : ConnCall) :
    (ollama_active procs conns
      = (decide (0 < count_procs "ollama" procs) || connSignal conns)) ∧
    (0 < count_procs "ollama" procs → ollama_active procs conns = true) ∧
    (connSignal conns = true → ollama_active procs conns = true) ∧
    (count_procs "ollama" procs = 0 → connSignal conns = false →
      ollama_active procs conns = false) := by
  have hmain : ollama_active procs conns
      = (decide (0 < count_procs "ollama" procs) || connSignal conns) := by
    by_cases h : 0 < count_procs "ollama" procs
    · simp [ollama_active, h]
    · cases conns <;> simp [ollama_active, connSignal, h]
  refine ⟨hmain, ?_, ?_, ?_⟩
  · intro h
    simp [hmain, h]
  · intro h
    simp [hmain, h]
  · intro h1 h2
    simp [hmain, h1, h2]

/-! ### The snapshot cache (class _Cache, source lines 79-106)

The cache holds the status payload, the Prometheus exposition bytes and
the timestamp of the last write.  The lock-level interleaving semantics is
modelled separately below (Sys and Step); here the sequential contract of
the methods is embedded directly. -/

structure Cache where
  status : Dict
  prometheus : List Nat
  ts : ℚ
deriving DecidableEq, Repr

/-- The state built by the cache constructor: empty dict, empty bytes and
ts = 0.0 — which is the Unix epoch, not the process start instant. -/
def Cache.initial : Cache := { status := [], prometheus := [], ts := 0 }

/-- write(status, prometheus): replace all three fields; ts becomes the
wall-clock value time.time() read inside write. -/
def Cache.write (_c : Cache) (status : Dict) (prometheus : List Nat) (now : ℚ) : Cache :=
  { status := status, prometheus := prometheus, ts := now }

/-- read_status: return (a copy of) the status dict and the timestamp. -/
def Cache.read_status (c : Cache) : Dict × ℚ := (c.status, c.ts)

/-- Python dict key assignment d[k] = v: replace in place when the key is
present, else append the new key at the end. -/
def dinsert (d : Dict) (k : String) (v : Val) : Dict :=
  if d.any (fun kv => kv.1 == k) then
    d.map (fun kv => if kv.1 == k then (k, v) else kv)
  else d ++ [(k, v)]

/-- The /api/v1/status handler body (source lines 282-287): read the
cache, then set payload of cache_age_s to round(now - ts, 1). -/
def public_status (c : Cache) (now : ℚ) : Dict :=
  let pr := c.read_status
  dinsert pr.1 "cache_age_s" (.q (round1 (now - pr.2)))

/-- C6 counterexample: the initial cache timestamp is 0.0 (the Unix
epoch).  For a process started at clock 100 whose initial collection
failed, a status read at clock 150 reports cache_age_s = 150 — the whole
wall-clock value — whereas the time elapsed since process start is
150 - 100 = 50, and 150 is not 50.  So before the first successful write
cache_age_s is not the time since process start. -/
theorem public_status_initial_age_counterexample :
    public_status Cache.initial 150 = [("cache_age_s", Val.q 150)] ∧
    (150 : ℚ) ≠ 150 - 100 := by
  constructor
  · norm_num [public_status, Cache.read_status, Cache.initial, dinsert, round1,
      round_eq]
  · norm_num

/-- C6 amended: before the first successful cache write, a status read at
clock value now returns the empty snapshot carrying only cache_age_s, and
that age equals the whole clock value now (the time since the Unix epoch,
because the initial timestamp is 0), not the time since process start. -/
theorem public_status_initial_age (now : ℚ) :
    public_status Cache.initial now = [("cache_age_s", Val.q (round1 now))] := by
  simp [public_status, Cache.read_status, Cache.initial, dinsert]

/-! ### The refresh loop (background_loop, source lines 255-262)

while True: try collect; except log; sleep.  collect performs its only
cache write as its final statement, so an exception raised anywhere during
collection leaves the cache untouched.  A tick is therefore modelled by
its outcome: ok (payload, exposition bytes, write clock) or error. -/

/-- Outcome of one collection attempt. -/
abbrev TickOutcome := Except Unit (Dict × List Nat × ℚ)

/-- One iteration of the loop body: a successful collection writes the
cache as its last action; any exception is caught, logged and ignored. -/
def loop_tick (c : Cache) : TickOutcome → Cache
  | .ok (p, b, t) => c.write p b t
  | .error _ => c

/-- The refresh loop, run over a finite prefix of its tick schedule. -/
def background_loop (c : Cache) (ticks : List TickOutcome) : Cache :=
  ticks.foldl loop_tick c

/-- C3: a collection failure at tick K writes nothing — the cache keeps
its snapshot, exposition bytes and timestamp — and the loop is not
terminated by it: the run over error-then-rest equals the run over rest,
and a successful tick K+1 after the failed tick K publishes its fresh
snapshot. -/
theorem background_loop_resilient (c : Cache) (e : Unit) (rest : List TickOutcome)
    (p : Dict) (b : List Nat) (t : ℚ) :
    loop_tick c (.error e) = c ∧
    background_loop c (.error e :: rest) = background_loop c rest ∧
    background_loop c [.error e, .ok (p, b, t)] = c.write p b t :=
  ⟨rfl, rfl, rfl⟩

/-! ### Snapshot timestamps (C8)

collect stamps the payload with ts = int(time.time()) while building it,
and write stamps the cache with ts = time.time(); the two clock reads of
tick K are passed explicitly. -/

/-- Python int() on a float: truncation toward zero. -/
def pyInt (x : ℚ) : ℤ := if 0 ≤ x then ⌊x⌋ else ⌈x⌉

theorem pyInt_mono {x y : ℚ} (h : x ≤ y) : pyInt x ≤ pyInt y := by
  unfold pyInt
  by_cases hx : 0 ≤ x
  · rw [if_pos hx, if_pos (le_trans hx h)]
    exact Int.floor_le_floor h
  · by_cases hy : 0 ≤ y
    · rw [if_neg hx, if_pos hy]
      have h1 : ⌈x⌉ ≤ 0 := Int.ceil_le.mpr (by exact_mod_cast le_of_lt (lt_of_not_ge hx))
      have h2 : (0 : ℤ) ≤ ⌊y⌋ := Int.le_floor.mpr (by exact_mod_cast hy)
      omega
    · rw [if_neg hx, if_neg hy]
      exact Int.ceil_le_ceil h

/-- One full tick: build the payload (whose first field is ts stamped with
the build-time clock read) and write it with the write-time clock read. -/
def collect_publish (c : Cache) (tPayload : ℚ) (rest : Dict) (b : List Nat)
    (tWrite : ℚ) : Cache :=
  c.write (("ts", Val.int (pyInt tPayload)) :: rest) b tWrite

/-- C8: across two consecutive published snapshots (tick K reading clocks
tp1 then tw1, tick K+1 reading tp2 then tw2, wall clock non-decreasing),
neither the cache ts nor the payload ts field decreases. -/
theorem snapshot_ts_monotone (c : Cache) (rest1 rest2 : Dict) (b1 b2 : List Nat)
    (tp1 tw1 tp2 tw2 : ℚ) (h1 : tp1 ≤ tw1) (h2 : tw1 ≤ tp2) (h3 : tp2 ≤ tw2) :
    (collect_publish c tp1 rest1 b1 tw1).ts
      ≤ (collect_publish (collect_publish c tp1 rest1 b1 tw1) tp2 rest2 b2 tw2).ts ∧
    (collect_publish c tp1 rest1 b1 tw1).status.lookup "ts"
      = some (Val.int (pyInt tp1)) ∧
    (collect_publish (collect_publish c tp1 rest1 b1 tw1) tp2 rest2 b2 tw2).status.lookup "ts"
      = some (Val.int (pyInt tp2)) ∧
    pyInt tp1 ≤ pyInt tp2 := by
  refine ⟨?_, rfl, rfl, pyInt_mono (le_trans h1 h2)⟩
  show tw1 ≤ tw2
  linarith

theorem snapshot_ts_monotone_witness :
    (collect_publish Cache.initial 1 [] [] 2).ts
      ≤ (collect_publish (collect_publish Cache.initial 1 [] [] 2) 3 [] [] 4).ts ∧
    (collect_publish Cache.initial 1 [] [] 2).status.lookup "ts"
      = some (Val.int (pyInt 1)) ∧
    (collect_publish (collect_publish Cache.initial 1 [] [] 2) 3 [] [] 4).status.lookup "ts"
      = some (Val.int (pyInt 3)) ∧
    pyInt 1 ≤ pyInt 3 :=
  snapshot_ts_monotone Cache.initial [] [] [] [] 1 2 3 4
    (by norm_num) (by norm_num) (by norm_num)

/-! ### Reference semantics of read_status (C9)

read_status returns dict(self.status) — a new top-level copy of the cached
dict — so the /api/v1/status handler mutating the returned dict (inserting
cache_age_s) cannot change the cache's stored payload.  To state this
aliasing fact, dict objects live on a small heap: addresses are naturals,
the cache holds the address of its status dict, and a read allocates a
fresh address holding a copy of its top-level entries. -/

abbrev Addr := Nat

structure Heap where
  next : Addr
  mem : Addr → Dict

/-- Allocate a new dict object at a fresh address. -/
def Heap.alloc (h : Heap) (d : Dict) : Heap × Addr :=
  ({ next := h.next + 1, mem := Function.update h.mem h.next d }, h.next)

/-- In-place key assignment on the dict object at address a. -/
def Heap.setKey (h : Heap) (a : Addr) (k : String) (v : Val) : Heap :=
  { h with mem := Function.update h.mem a (dinsert (h.mem a) k v) }

/-- The cache as a holder of a reference to its status dict. -/
structure CacheRef where
  statusAddr : Addr
  ts : ℚ

/-- read_status under reference semantics: dict(self.status) allocates a
fresh top-level copy, returned together with ts. -/
def read_status_ref (h : Heap) (c : CacheRef) : Heap × Addr × ℚ :=
  let pr := h.alloc (h.mem c.statusAddr)
  (pr.1, pr.2, c.ts)

/-- The /api/v1/status handler: read, then mutate the returned dict
in place by inserting cache_age_s. -/
def public_status_ref (h : Heap) (c : CacheRef) (now : ℚ) : Heap × Addr :=
  let r := read_status_ref h c
  (Heap.setKey r.1 r.2.1 "cache_age_s" (.q (round1 (now - r.2.2))), r.2.1)

/-- C9: read_status hands out a fresh top-level copy, so the handler's
in-place insertion of cache_age_s leaves the cache's stored status dict
unchanged: after public_status the object at the cache's address is
exactly the original payload, the returned address is distinct from the
cache's, the returned object carries the caller's addition, and a
subsequent read again yields the original payload without it. -/
theorem read_status_fresh_copy (h : Heap) (c : CacheRef) (now : ℚ)
    (hvalid : c.statusAddr < h.next) :
    (public_status_ref h c now).1.mem c.statusAddr = h.mem c.statusAddr ∧
    (public_status_ref h c now).2 ≠ c.statusAddr ∧
    (public_status_ref h c now).1.mem (public_status_ref h c now).2
      = dinsert (h.mem c.statusAddr) "cache_age_s" (.q (round1 (now - c.ts))) ∧
    (read_status_ref (public_status_ref h c now).1 c).1.mem
        (read_status_ref (public_status_ref h c now).1 c).2.1
      = h.mem c.statusAddr := by
  have hne : c.statusAddr ≠ h.next := Nat.ne_of_lt hvalid
  refine ⟨?_, ?_, ?_, ?_⟩
  · simp [public_status_ref, read_status_ref, Heap.alloc, Heap.setKey,
      Function.update_noteq hne]
  · exact fun hcontra => hne hcontra.symm
  · simp [public_status_ref, read_status_ref, Heap.alloc, Heap.setKey,
      Function.update_same, Function.update_noteq hne]
  · have hne2 : c.statusAddr ≠ h.next + 1 := Nat.ne_of_lt (Nat.lt_succ_of_lt hvalid)
    simp [public_status_ref, read_status_ref, Heap.alloc, Heap.setKey,
      Function.update_same, Function.update_noteq hne, Function.update_noteq hne2]

theorem read_status_fresh_copy_witness :
    (public_status_ref ⟨1, fun _ => [("ts", Val.int 5)]⟩ ⟨0, 0⟩ 7).1.mem 0
        = [("ts", Val.int 5)] ∧
    (public_status_ref ⟨1, fun _ => [("ts", Val.int 5)]⟩ ⟨0, 0⟩ 7).2 ≠ 0 ∧
    (public_status_ref ⟨1, fun _ => [("ts", Val.int 5)]⟩ ⟨0, 0⟩ 7).1.mem
        (public_status_ref ⟨1, fun _ => [("ts", Val.int 5)]⟩ ⟨0, 0⟩ 7).2
      = dinsert [("ts", Val.int 5)] "cache_age_s" (.q (round1 (7 - 0))) ∧
    (read_status_ref (public_status_ref ⟨1, fun _ => [("ts", Val.int 5)]⟩ ⟨0, 0⟩ 7).1
        ⟨0, 0⟩).1.mem
        (read_status_ref (public_status_ref ⟨1, fun _ => [("ts", Val.int 5)]⟩ ⟨0, 0⟩ 7).1
        ⟨0, 0⟩).2.1
      = [("ts", Val.int 5)] :=
  read_status_fresh_copy ⟨1, fun _ => [("ts", Val.int 5)]⟩ ⟨0, 0⟩ 7 (by decide)

/-- A concrete matching process for the liveness witness. -/
def ollamaProc : Proc :=
  { pid := 7, name := "ollama", username := "svc", cmdline := ["ollama", "serve"],
    cpu_percent := 0, mem_rss := 0, create_time := 0, readable := true }

theorem ollama_active_spec_witness :
    ollama_active [ollamaProc] (.error ()) = true ∧
    ollama_active [] (.ok [{ lport := 11434, status := "ESTABLISHED" }]) = true ∧
    ollama_active [] (.ok []) = false :=
  ⟨(ollama_active_spec [ollamaProc] (.error ())).2.1 (by decide),
   (ollama_active_spec [] (.ok [{ lport := 11434, status := "ESTABLISHED" }])).2.2.1
     (by decide),
   (ollama_active_spec [] (.ok [])).2.2.2 (by decide) (by decide)⟩

/-! ### Lock-level interleaving semantics of the cache (C1)

write executes, under the lock, three successive field assignments
(status, prometheus, ts); read_status executes, under the lock, a read of
status (the dict copy) followed by a read of ts.  The interleaving of one
background writer performing tick after tick with arbitrarily many
concurrent readers is modelled as a transition system whose atomic steps
are exactly these operations plus lock acquire and release — a reader or
the writer can be preempted between any two of its field accesses, but
acquire succeeds only on a free lock.  Cache fields hold the index of the
tick that wrote them (tick 0 being the constructor), so mixing fields of
two ticks is directly expressible. -/

/-- Local state of one reader executing read_status: program counter
(0 idle, 1 lock held, 2 status read, 3 ts read, 4 returned) and the two
values it has read. -/
structure ReaderSt where
  pc : Nat
  obsStatus : Nat
  obsTs : Nat
deriving DecidableEq, Repr

/-- Global state: the lock (none free, some 0 the writer, some (r+1)
reader r), the tick index that wrote each cache field, the writer's
program counter (0 idle, 1 lock held, 2 status written, 3 prometheus
written, 4 ts written) and current tick index, and every reader. -/
structure Sys where
  lock : Option Nat
  statusTick : Nat
  promTick : Nat
  tsTick : Nat
  wpc : Nat
  wtick : Nat
  readers : Nat → ReaderSt

/-- Start state: constructor values (tick 0) everywhere, lock free, the
writer about to perform tick 1, every reader idle. -/
def Sys.start : Sys :=
  { lock := none, statusTick := 0, promTick := 0, tsTick := 0,
    wpc := 0, wtick := 1, readers := fun _ => { pc := 0, obsStatus := 0, obsTs := 0 } }

/-- Atomic steps of the writer (the five lines of write for its current
tick) and of each reader (the four lines of read_status). -/
inductive Step : Sys → Sys → Prop where
  | wAcquire (s : Sys) (hl : s.lock = none) (hp : s.wpc = 0) :
      Step s { s with lock := some 0, wpc := 1 }
  | wSetStatus (s : Sys) (hp : s.wpc = 1) :
      Step s { s with statusTick := s.wtick, wpc := 2 }
  | wSetProm (s : Sys) (hp : s.wpc = 2) :
      Step s { s with promTick := s.wtick, wpc := 3 }
  | wSetTs (s : Sys) (hp : s.wpc = 3) :
      Step s { s with tsTick := s.wtick, wpc := 4 }
  | wRelease (s : Sys) (hp : s.wpc = 4) :
      Step s { s with lock := none, wpc := 0, wtick := s.wtick + 1 }
  | rAcquire (s : Sys) (r : Nat) (hl : s.lock = none) (hp : (s.readers r).pc = 0) :
      Step s { s with lock := some (r + 1),
                      readers := Function.update s.readers r
                        { s.readers r with pc := 1 } }
  | rReadStatus (s : Sys) (r : Nat) (hp : (s.readers r).pc = 1) :
      Step s { s with readers := Function.update s.readers r
                        { s.readers r with pc := 2, obsStatus := s.statusTick } }
  | rReadTs (s : Sys) (r : Nat) (hp : (s.readers r).pc = 2) :
      Step s { s with readers := Function.update s.readers r
                        { s.readers r with pc := 3, obsTs := s.tsTick } }
  | rRelease (s : Sys) (r : Nat) (hp : (s.readers r).pc = 3) :
      Step s { s with lock := none,
                      readers := Function.update s.readers r
                        { s.readers r with pc := 4 } }

/-- States reachable from the start state by any interleaving. -/
inductive Reach : Sys → Prop where
  | start : Reach Sys.start
  | step {s t : Sys} : Reach s → Step s t → Reach t

/-- Writer part of the inductive invariant: the writer holds the lock
exactly while inside write, and the cache fields track its progress
through the three assignments of its current tick. -/
def WriterInv (s : Sys) : Prop :=
  s.wpc ≤ 4 ∧ 1 ≤ s.wtick ∧
  (s.lock = some 0 ↔ 1 ≤ s.wpc) ∧
  (s.wpc ≤ 1 →
    s.statusTick = s.wtick - 1 ∧ s.promTick = s.wtick - 1 ∧ s.tsTick = s.wtick - 1) ∧
  (s.wpc = 2 →
    s.statusTick = s.wtick ∧ s.promTick = s.wtick - 1 ∧ s.tsTick = s.wtick - 1) ∧
  (s.wpc = 3 →
    s.statusTick = s.wtick ∧ s.promTick = s.wtick ∧ s.tsTick = s.wtick - 1) ∧
  (s.wpc = 4 →
    s.statusTick = s.wtick ∧ s.promTick = s.wtick ∧ s.tsTick = s.wtick)

/-- Reader part of the invariant: a reader inside read_status holds the
lock; after its first read its observation matches the cache; after its
second read its two observations agree. -/
def ReaderInv (s : Sys) : Prop :=
  ∀ r : Nat,
    (s.readers r).pc ≤ 4 ∧
    (1 ≤ (s.readers r).pc ∧ (s.readers r).pc ≤ 3 → s.lock = some (r + 1)) ∧
    ((s.readers r).pc = 2 → (s.readers r).obsStatus = s.statusTick) ∧
    (3 ≤ (s.readers r).pc → (s.readers r).obsStatus = (s.readers r).obsTs)

def Inv (s : Sys) : Prop := WriterInv s ∧ ReaderInv s

theorem inv_start : Inv Sys.start := by
  constructor
  · refine ⟨by simp [Sys.start], by simp [Sys.start], ?_, ?_, ?_, ?_, ?_⟩ <;>
      simp [Sys.start]
  · intro r
    refine ⟨by simp [Sys.start], ?_, ?_, ?_⟩ <;> simp [Sys.start]

theorem inv_step {s t : Sys} (hs : Inv s) (hst : Step s t) : Inv t := by
  obtain ⟨⟨hw4, hw1, hwl, hwA, hwB, hwC, hwD⟩, hr⟩ := hs
  cases hst with
  | wAcquire hl hp =>
    refine ⟨⟨?_, ?_, ?_, ?_, ?_, ?_, ?_⟩, ?_⟩
    all_goals dsimp only
    · omega
    · exact hw1
    · simp
    · intro _
      exact hwA (by omega)
    · intro h
      omega
    · intro h
      omega
    · intro h
      omega
    · intro r
      obtain ⟨ha, hb, hc, hd⟩ := hr r
      refine ⟨ha, ?_, hc, hd⟩
      intro hcs
      exfalso
      have h1 := hb hcs
      rw [hl] at h1
      exact Option.noConfusion h1
  | wSetStatus hp =>
    have hlock0 : s.lock = some 0 := hwl.mpr (by omega)
    refine ⟨⟨?_, ?_, ?_, ?_, ?_, ?_, ?_⟩, ?_⟩
    all_goals dsimp only
    · omega
    · exact hw1
    · simp [hlock0]
    · intro h
      omega
    · intro _
      exact ⟨rfl, (hwA (by omega)).2.1, (hwA (by omega)).2.2⟩
    · intro h
      omega
    · intro h
      omega
    · intro r
      obtain ⟨ha, hb, hc, hd⟩ := hr r
      refine ⟨ha, hb, ?_, hd⟩
      intro h2
      have h2x : (s.readers r).pc = 2 := h2
      exfalso
      have h1 := hb ⟨by omega, by omega⟩
      rw [hlock0] at h1
      have := Option.some.inj h1
      omega
  | wSetProm hp =>
    have hlock0 : s.lock = some 0 := hwl.mpr (by omega)
    refine ⟨⟨?_, ?_, ?_, ?_, ?_, ?_, ?_⟩, ?_⟩
    all_goals dsimp only
    · omega
    · exact hw1
    · simp [hlock0]
    · intro h
      omega
    · intro h
      omega
    · intro _
      exact ⟨(hwB hp).1, rfl, (hwB hp).2.2⟩
    · intro h
      omega
    · intro r
      obtain ⟨ha, hb, hc, hd⟩ := hr r
      exact ⟨ha, hb, hc, hd⟩
  | wSetTs hp =>
    have hlock0 : s.lock = some 0 := hwl.mpr (by omega)
    refine ⟨⟨?_, ?_, ?_, ?_, ?_, ?_, ?_⟩, ?_⟩
    all_goals dsimp only
    · omega
    · exact hw1
    · simp [hlock0]
    · intro h
      omega
    · intro h
      omega
    · intro h
      omega
    · intro _
      exact ⟨(hwC hp).1, (hwC hp).2.1, rfl⟩
    · intro r
      obtain ⟨ha, hb, hc, hd⟩ := hr r
      exact ⟨ha, hb, hc, hd⟩
  | wRelease hp =>
    refine ⟨⟨?_, ?_, ?_, ?_, ?_, ?_, ?_⟩, ?_⟩
    all_goals dsimp only
    · omega
    · omega
    · simp
    · intro _
      obtain ⟨e1, e2, e3⟩ := hwD hp
      omega
    · intro h
      omega
    · intro h
      omega
    · intro h
      omega
    · intro r
      obtain ⟨ha, hb, hc, hd⟩ := hr r
      refine ⟨ha, ?_, hc, hd⟩
      intro hcs
      exfalso
      have h1 := hb hcs
      have h2 : s.lock = some 0 := hwl.mpr (by omega)
      rw [h1] at h2
      have := Option.some.inj h2
      omega
  | rAcquire r0 hl hp =>
    refine ⟨⟨?_, ?_, ?_, ?_, ?_, ?_, ?_⟩, ?_⟩
    all_goals dsimp only
    · exact hw4
    · exact hw1
    · constructor
      · intro h
        have := Option.some.inj h
        omega
      · intro h
        exfalso
        have h2 := hwl.mpr h
        rw [hl] at h2
        exact Option.noConfusion h2
    · exact fun h => hwA h
    · exact fun h => hwB h
    · exact fun h => hwC h
    · exact fun h => hwD h
    · intro r
      obtain ⟨ha, hb, hc, hd⟩ := hr r
      by_cases hrr : r = r0
      · subst hrr
        simp [Function.update_same]
      · refine ⟨?_, ?_, ?_, ?_⟩ <;> simp only [Function.update_noteq hrr]
        · exact ha
        · intro hcs
          exfalso
          have h1 := hb hcs
          rw [hl] at h1
          exact Option.noConfusion h1
        · exact hc
        · exact hd
  | rReadStatus r0 hp =>
    refine ⟨⟨hw4, hw1, hwl, hwA, hwB, hwC, hwD⟩, ?_⟩
    intro r
    obtain ⟨ha, hb, hc, hd⟩ := hr r
    dsimp only
    by_cases hrr : r = r0
    · subst hrr
      have hlk : s.lock = some (r + 1) := hb ⟨by omega, by omega⟩
      simp [Function.update_same, hlk]
    · refine ⟨?_, ?_, ?_, ?_⟩ <;> simp only [Function.update_noteq hrr]
      · exact ha
      · exact hb
      · exact hc
      · exact hd
  | rReadTs r0 hp =>
    have hlockr : s.lock = some (r0 + 1) := (hr r0).2.1 ⟨by omega, by omega⟩
    have hwpc0 : s.wpc = 0 := by
      by_contra hne
      have h2 : s.lock = some 0 := hwl.mpr (by omega)
      rw [hlockr] at h2
      have := Option.some.inj h2
      omega
    have heq : s.statusTick = s.tsTick := by
      obtain ⟨e1, _, e3⟩ := hwA (by omega)
      rw [e1, e3]
    refine ⟨⟨hw4, hw1, hwl, hwA, hwB, hwC, hwD⟩, ?_⟩
    intro r
    obtain ⟨ha, hb, hc, hd⟩ := hr r
    dsimp only
    by_cases hrr : r = r0
    · subst hrr
      have hobs : (s.readers r).obsStatus = s.tsTick := by rw [hc hp, heq]
      simp [Function.update_same, hlockr, hobs]
    · refine ⟨?_, ?_, ?_, ?_⟩ <;> simp only [Function.update_noteq hrr]
      · exact ha
      · exact hb
      · exact hc
      · exact hd
  | rRelease r0 hp =>
    have hlockr : s.lock = some (r0 + 1) := (hr r0).2.1 ⟨by omega, by omega⟩
    have hwpc0 : s.wpc = 0 := by
      by_contra hne
      have h2 : s.lock = some 0 := hwl.mpr (by omega)
      rw [hlockr] at h2
      have := Option.some.inj h2
      omega
    refine ⟨⟨?_, ?_, ?_, ?_, ?_, ?_, ?_⟩, ?_⟩
    all_goals dsimp only
    · exact hw4
    · exact hw1
    · constructor
      · intro h
        exact Option.noConfusion h
      · intro h
        exfalso
        omega
    · exact fun h => hwA h
    · exact fun h => hwB h
    · exact fun h => hwC h
    · exact fun h => hwD h
    · intro r
      obtain ⟨ha, hb, hc, hd⟩ := hr r
      by_cases hrr : r = r0
      · subst hrr
        have hobs : (s.readers r).obsStatus = (s.readers r).obsTs := hd (by omega)
        simp [Function.update_same, hobs]
      · refine ⟨?_, ?_, ?_, ?_⟩ <;> simp only [Function.update_noteq hrr]
        · exact ha
        · intro hcs
          exfalso
          have h1 := hb hcs
          rw [hlockr] at h1
          have := Option.some.inj h1
          omega
        · exact hc
        · exact hd

theorem inv_reach {s : Sys} (h : Reach s) : Inv s := by
  induction h with
  | start => exact inv_start
  | step _ hst ih => exact inv_step ih hst

/-- C1: snapshot publication is all-or-nothing.  In every interleaving of
the background writer with arbitrarily many concurrent readers, a reader
that has completed the body of read_status (pc at least 3) holds a status
dict and a timestamp written by one and the same tick k: no read ever
mixes a field written by tick K with a field written by tick K+1. -/
theorem snapshot_atomicity {s : Sys} (hreach : Reach s) (r : Nat)
    (hdone : 3 ≤ (s.readers r).pc) :
    ∃ k : Nat, (s.readers r).obsStatus = k ∧ (s.readers r).obsTs = k :=
  ⟨(s.readers r).obsStatus, rfl, (((inv_reach hreach).2 r).2.2.2 hdone).symm⟩

/-- A concrete interleaving: reader 0 acquires the lock, reads status,
reads ts and is about to release. -/
def demo1 : Sys :=
  { Sys.start with
    lock := some 1
    readers := Function.update Sys.start.readers 0
      { Sys.start.readers 0 with pc := 1 } }

def demo2 : Sys :=
  { demo1 with
    readers := Function.update demo1.readers 0
      { demo1.readers 0 with pc := 2, obsStatus := demo1.statusTick } }

def demo3 : Sys :=
  { demo2 with
    readers := Function.update demo2.readers 0
      { demo2.readers 0 with pc := 3, obsTs := demo2.tsTick } }

theorem step_demo01 : Step Sys.start demo1 :=
  Step.rAcquire Sys.start 0 rfl rfl

theorem step_demo12 : Step demo1 demo2 :=
  Step.rReadStatus demo1 0 (by simp [demo1, Sys.start, Function.update_same])

theorem step_demo23 : Step demo2 demo3 :=
  Step.rReadTs demo2 0 (by simp [demo2, demo1, Sys.start, Function.update_same])

theorem reach_demo3 : Reach demo3 :=
  Reach.step (Reach.step (Reach.step Reach.start step_demo01) step_demo12) step_demo23

theorem snapshot_atomicity_witness :
    ∃ k : Nat, (demo3.readers 0).obsStatus = k ∧ (demo3.readers 0).obsTs = k :=
  snapshot_atomicity reach_demo3 0
    (by simp [demo3, demo2, demo1, Sys.start, Function.update_same])

end Telemetry
